import Mathlib

/-!
Shallow embedding of superphot's resampling-plus-validation pipeline
(src/superphot/classify.py and src/superphot/optimize.py).

Numeric feature values are embedded as exact rationals extended with the
IEEE-754 special values (signed infinities and NaN) that the numpy code can
produce.  Only the special-value rules that the embedded code paths exercise
are modelled, each following the IEEE-754 semantics that numpy implements
(for example true_divide(1, 0.0) = +inf and 0.0 * inf = nan).
-/

inductive F where
  | fin (q : ℚ)
  | pinf
  | ninf
  | nan

deriving DecidableEq

/-- IEEE-754 negation. -/
def F.neg : F → F
  | .fin q => .fin (-q)
  | .pinf => .ninf
  | .ninf => .pinf
  | .nan => .nan

/-- IEEE-754 addition (NaN propagates; opposite infinities give NaN). -/
def F.add : F → F → F
  | .nan, _ => .nan
  | _, .nan => .nan
  | .fin a, .fin b => .fin (a + b)
  | .fin _, .pinf => .pinf
  | .fin _, .ninf => .ninf
  | .pinf, .fin _ => .pinf
  | .ninf, .fin _ => .ninf
  | .pinf, .pinf => .pinf
  | .ninf, .ninf => .ninf
  | .pinf, .ninf => .nan
  | .ninf, .pinf => .nan

/-- IEEE-754 subtraction. -/
def F.sub (a b : F) : F := F.add a (F.neg b)

/-- IEEE-754 multiplication (0 * inf = NaN). -/
def F.mul : F → F → F
  | .nan, _ => .nan
  | _, .nan => .nan
  | .fin a, .fin b => .fin (a * b)
  | .fin a, .pinf => if a = 0 then .nan else if 0 < a then .pinf else .ninf
  | .fin a, .ninf => if a = 0 then .nan else if 0 < a then .ninf else .pinf
  | .pinf, .fin a => if a = 0 then .nan else if 0 < a then .pinf else .ninf
  | .ninf, .fin a => if a = 0 then .nan else if 0 < a then .ninf else .pinf
  | .pinf, .pinf => .pinf
  | .pinf, .ninf => .ninf
  | .ninf, .pinf => .ninf
  | .ninf, .ninf => .pinf

/-- IEEE-754 division (0/0 = NaN, x/0 = signed infinity for x not 0; zero here
is the positive zero that numpy's integer-to-float conversions produce). -/
def F.div : F → F → F
  | .nan, _ => .nan
  | _, .nan => .nan
  | .fin a, .fin b =>
      if b = 0 then (if a = 0 then .nan else if 0 < a then .pinf else .ninf)
      else .fin (a / b)
  | .fin _, .pinf => .fin 0
  | .fin _, .ninf => .fin 0
  | .pinf, .fin b => if 0 ≤ b then .pinf else .ninf
  | .ninf, .fin b => if 0 ≤ b then .ninf else .pinf
  | .pinf, .pinf => .nan
  | .pinf, .ninf => .nan
  | .ninf, .pinf => .nan
  | .ninf, .ninf => .nan

/-- True exactly on finite values. -/
def F.isFiniteB : F → Bool
  | .fin _ => true
  | _ => false

/-- Sum of a list of embedded floats, as numpy's reductions compute it. -/
def sumF (l : List F) : F := l.foldr F.add (F.fin 0)

/-!
Embedding of the numpy calls made by MultivariateGaussian._fit_resample
(classify.py lines 90-95).  A feature matrix is a list of rows of rationals;
rows are assumed rectangular (numpy arrays are), which the theorems carry as
an explicit hypothesis where it matters.
-/

/-- np.flatnonzero(y == class_sample): the positions at which y equals the
class (classify.py line 85). -/
def targetClassIndices (y : List ℕ) (c : ℕ) : List ℕ :=
  (List.range y.length).filter fun i => y.getD i 0 = c

/-- safe_indexing(X, target_class_indices): the rows of X at those positions
(classify.py line 90). -/
def codeClassRows (X : List (List ℚ)) (y : List ℕ) (c : ℕ) : List (List ℚ) :=
  (targetClassIndices y c).map fun i => X.getD i []

/-- np.mean(X_class, axis=0): column-wise sums divided by the number of rows. -/
def npMean (Xc : List (List ℚ)) : List F :=
  (List.range (Xc.headD []).length).map fun j =>
    F.div (sumF (Xc.map fun r => F.fin (r.getD j 0))) (F.fin (Xc.length : ℚ))

/-- The normalisation factor of np.cov: N - ddof with ddof = 1, clamped to
zero when the degrees of freedom are not positive (numpy then emits a
RuntimeWarning and carries on with fact = 0.0). -/
def covFact (n : ℕ) : ℚ := if (n : ℚ) - 1 ≤ 0 then 0 else (n : ℚ) - 1

/-- np.cov(X_class, rowvar=False): entry (i,j) is the sum of centred products
multiplied by true_divide(1, fact), exactly as numpy computes it.  For a
single observation fact is 0, true_divide(1, 0.0) is +inf, and the centred
sums are 0, so every entry becomes 0 * inf = NaN. -/
def npCov (Xc : List (List ℚ)) : List (List F) :=
  (List.range (Xc.headD []).length).map fun i =>
    (List.range (Xc.headD []).length).map fun j =>
      F.mul
        (sumF (Xc.map fun r =>
          F.mul (F.sub (F.fin (r.getD i 0)) ((npMean Xc).getD i F.nan))
                (F.sub (F.fin (r.getD j 0)) ((npMean Xc).getD j F.nan))))
        (F.div (F.fin 1) (F.fin (covFact Xc.length)))

/-- Modelled from the spec: "Select the subset of rows belonging to that
class" — the spec-side description of step 1 of the oversampling algorithm,
used to check the flatnonzero/safe_indexing implementation against it. -/
def specClassRows (X : List (List ℚ)) (y : List ℕ) (c : ℕ) : List (List ℚ) :=
  (X.zip y).filterMap fun p => if p.2 = c then some p.1 else none

/-- Modelled from the spec: "the sample mean vector ... over that subset". -/
def specMean (d : ℕ) (Xc : List (List ℚ)) : List ℚ :=
  (List.range d).map fun j => (Xc.map fun r => r.getD j 0).sum / (Xc.length : ℚ)

/-- Modelled from the spec: "the sample covariance matrix (using N-1
denominator, i.e., unbiased estimator) over that subset". -/
def specCov (d : ℕ) (Xc : List (List ℚ)) : List (List ℚ) :=
  (List.range d).map fun i => (List.range d).map fun j =>
    (Xc.map fun r =>
      (r.getD i 0 - (specMean d Xc).getD i 0) * (r.getD j 0 - (specMean d Xc).getD j 0)).sum
      / ((Xc.length : ℚ) - 1)

/-!
The random draws.  numpy's RandomState is an external library object; the
spec only requires that sampling "accept a seed/generator state for
reproducibility".  Modelled from the spec: a generator state is a natural
number, the k-th draw of a batch is an arbitrary deterministic function of
the state and k, and drawing advances the state.  check_random_state(None)
returns the shared global generator, check_random_state(seed) a fresh
generator seeded with the integer, exactly as sklearn documents.
-/

abbrev RNG := ℕ

/-- sklearn.utils.check_random_state: an integer seed yields a fresh
generator seeded with it, None yields the global generator. -/
def checkRandomState (seed : Option ℕ) (globalRng : RNG) : RNG :=
  seed.getD globalRng

/-- One synthetic row: the mean perturbed by a state-dependent offset (the
concrete offset stands in for the Gaussian stream; no claim depends on its
distribution, only on its determinism in the state). -/
def drawRow (mean : List F) (g : RNG) (k : ℕ) : List F :=
  mean.map fun m => F.add m (F.fin ((g + k : ℕ) : ℚ))

/-- rs.multivariate_normal(mean, cov, n_samples) (classify.py line 95).
numpy first builds the output shape — a negative size raises ValueError —
and then runs an SVD of the covariance, which raises LinAlgError when the
matrix contains non-finite entries. -/
def multivariateNormal (mean : List F) (cov : List (List F)) (n : ℤ) (g : RNG) :
    Except String (List (List F) × RNG) :=
  if n < 0 then .error ("ValueError: negative dimensions are not allowed")
  else if cov.any (fun row => row.any fun v => !v.isFiniteB) then
    .error ("LinAlgError: SVD did not converge")
  else .ok ((List.range n.toNat).map (drawRow mean g), g + n.toNat)

/-- The keys of self.sampling_strategy_ with strategy 'all': every class
present in y, in the sorted order np.unique produces. -/
def classesOf (y : List ℕ) : List ℕ :=
  List.insertionSort (· ≤ ·) y.dedup

/-- The largest per-class count in y; with strategy 'all' imblearn targets
every class at the majority count. -/
def maxClassCount (y : List ℕ) : ℕ :=
  ((classesOf y).map fun c => y.count c).foldr max 0

/-- The n_samples value the loop body uses for class c (classify.py lines
84-87): the imblearn 'all' target unless samples_per_class overrides it with
samples_per_class - len(target_class_indices), which can be negative. -/
def targetN (spc : Option ℤ) (y : List ℕ) (c : ℕ) : ℤ :=
  match spc with
  | some t => t - (targetClassIndices y c).length
  | none => (maxClassCount y : ℤ) - (targetClassIndices y c).length

/-- One iteration of the for loop of MultivariateGaussian._fit_resample
(classify.py lines 84-99), acting on the accumulator
(X_resampled, y_resampled, global generator state). -/
def classStep (spc : Option ℤ) (seed : Option ℕ) (X : List (List ℚ)) (y : List ℕ)
    (c : ℕ) : List (List F) × List ℕ × RNG → Except String (List (List F) × List ℕ × RNG) :=
  fun acc =>
    let n := targetN spc y c
    if n = 0 then .ok acc
    else
      let Xc := codeClassRows X y c
      let rs := checkRandomState seed acc.2.2
      match multivariateNormal (npMean Xc) (npCov Xc) n rs with
      | .error e => .error e
      | .ok (rows, rs2) =>
          .ok (acc.1 ++ rows, acc.2.1 ++ List.replicate n.toNat c,
               if seed.isNone then rs2 else acc.2.2)

/-- The for loop over self.sampling_strategy_.items(). -/
def resampleLoop (spc : Option ℤ) (seed : Option ℕ) (X : List (List ℚ)) (y : List ℕ) :
    List ℕ → List (List F) × List ℕ × RNG → Except String (List (List F) × List ℕ × RNG)
  | [], acc => .ok acc
  | c :: cs, acc =>
      match classStep spc seed X y c acc with
      | .error e => .error e
      | .ok acc2 => resampleLoop spc seed X y cs acc2

/-- MultivariateGaussian._fit_resample (classify.py lines 78-101): start from
copies of X and y, loop over the classes, return the augmented pair.  spc is
the samples_per_class field (set when the sampler was built with an integer
sampling_strategy), seed the random_state field, g the global numpy
generator consumed when random_state is None. -/
def fitResample (spc : Option ℤ) (seed : Option ℕ) (X : List (List ℚ)) (y : List ℕ)
    (g : RNG) : Except String (List (List F) × List ℕ) :=
  (resampleLoop spc seed X y (classesOf y) (X.map (fun r => r.map F.fin), y, g)).map
    fun acc => (acc.1, acc.2.1)

/-!
Embedding of the cross-validation fold structure of validate_classifier
(classify.py lines 158-166).  The code builds sklearn's plain
KFold(len(np.unique(data['id']))) and iterates kf.split(data): KFold ignores
the id column and deals the row indices 0..n-1 into n_splits consecutive
blocks, the first n mod n_splits blocks one longer.  KFold raises ValueError
when n_splits < 2 and when there are fewer rows than splits.
-/

/-- The fold sizes sklearn's KFold assigns: each n / k, with the first
n mod k folds getting one extra row. -/
def foldSizes (k n : ℕ) : List ℕ :=
  (List.range k).map fun i => n / k + if i < n % k then 1 else 0

/-- Consecutive index blocks of the given sizes starting at start. -/
def blocksFrom : List ℕ → ℕ → List (List ℕ)
  | [], _ => []
  | sz :: rest, start => List.range' start sz :: blocksFrom rest (start + sz)

/-- KFold(k).split on n rows, keeping only the test-index sets; none models
the ValueError KFold raises for k < 2 or n < k. -/
def kfoldTestFolds (k n : ℕ) : Option (List (List ℕ)) :=
  if k < 2 ∨ n < k then none else some (blocksFrom (foldSizes k n) 0)

/-- The train half of a split: np.setdiff of all row indices and the test
block, i.e. every index not in the test fold. -/
def kfoldTrainOf (n : ℕ) (test : List ℕ) : List ℕ :=
  (List.range n).filter fun i => ¬ test.contains i

/-- The test folds validate_classifier iterates for a table whose id column
is ids: KFold with n_splits = len(np.unique(ids)) applied to the row count
(classify.py line 158, 161). -/
def validateTestFolds (ids : List ℕ) : Option (List (List ℕ)) :=
  kfoldTestFolds ids.dedup.length ids.length

/-- How many of the given test folds contain at least one row whose id is
gp — the number of distinct test folds a group key appears in. -/
def foldsContainingGroup (ids : List ℕ) (folds : List (List ℕ)) (gp : ℕ) : ℕ :=
  (folds.filter fun f => f.any fun i => ids.getD i (gp + 1) = gp).length

/-!
Embedding of the per-class metric computation of test_hyperparameters
(optimize.py lines 41-49).  sklearn's confusion_matrix(y_true, y_pred) uses
as label axis the sorted distinct values appearing in y_true or y_pred;
entry (i, j) counts rows whose true label is the i-th and predicted label
the j-th.  completeness is diag / row sums and purity diag / column sums,
numpy float division, so an empty row or column yields 0/0 = NaN.  The
per-class values are then zip-ped against pipeline.classes_, Python zip
truncating at the shorter list.  Class labels are embedded as naturals.
-/

/-- The label axis of sklearn.metrics.confusion_matrix: sorted distinct
values of y_true and y_pred combined. -/
def cmLabels (yt yp : List ℕ) : List ℕ :=
  List.insertionSort (· ≤ ·) (yt ++ yp).dedup

/-- The number of rows with true label t and predicted label p. -/
def pairCount (prs : List (ℕ × ℕ)) (t p : ℕ) : ℕ :=
  prs.countP fun pr => pr.1 = t ∧ pr.2 = p

/-- The row sum of the confusion matrix at true label t: total over the
predicted-label axis. -/
def cmRowSum (yt yp : List ℕ) (t : ℕ) : ℕ :=
  ((cmLabels yt yp).map fun p => pairCount (yt.zip yp) t p).sum

/-- The column sum of the confusion matrix at predicted label p. -/
def cmColSum (yt yp : List ℕ) (p : ℕ) : ℕ :=
  ((cmLabels yt yp).map fun t => pairCount (yt.zip yp) t p).sum

/-- np.diag(cnf_matrix) / cnf_matrix.sum(axis=1): per-label completeness, in
axis order. -/
def completenessList (yt yp : List ℕ) : List F :=
  (cmLabels yt yp).map fun t =>
    F.div (F.fin (pairCount (yt.zip yp) t t)) (F.fin (cmRowSum yt yp t))

/-- np.diag(cnf_matrix) / cnf_matrix.sum(axis=0): per-label purity, in axis
order. -/
def purityList (yt yp : List ℕ) : List F :=
  (cmLabels yt yp).map fun p =>
    F.div (F.fin (pairCount (yt.zip yp) p p)) (F.fin (cmColSum yt yp p))

/-- zip(pipeline.classes_, completeness, purity) (optimize.py line 47):
Python's zip truncates at the shortest input, pairing the classifier's
classes positionally with the confusion-matrix axis. -/
def perClassMetrics (cls yt yp : List ℕ) : List (ℕ × F × F) :=
  cls.zip ((completenessList yt yp).zip (purityList yt yp))

/-- accuracy_score(results['type'], predicted_types): matching fraction. -/
def accuracyScore (yt yp : List ℕ) : F :=
  F.div (F.fin (((yt.zip yp).filter fun pr => pr.1 = pr.2).length : ℚ))
        (F.fin (yt.length : ℚ))

/-- Per-label F1 as sklearn computes it for f1_score: 2 TP / (2 TP + FP + FN),
with the zero_division fallback to 0. -/
def f1ForLabel (yt yp : List ℕ) (t : ℕ) : ℚ :=
  let tp := pairCount (yt.zip yp) t t
  let denom := (cmRowSum yt yp t + cmColSum yt yp t : ℚ)
  if denom = 0 then 0 else 2 * tp / denom

/-- f1_score(..., average='macro'): mean of the per-label F1 values over the
confusion-matrix label axis. -/
def macroF1 (yt yp : List ℕ) : F :=
  F.div (F.fin ((cmLabels yt yp).map fun t => f1ForLabel yt yp t).sum)
        (F.fin ((cmLabels yt yp).length : ℚ))

/-!
Embedding of train_classifier (classify.py lines 104-141): construct the
classifier object, dispatch on sampler_type, resample, then fit.  The
classifier construction touches no data; resampling and fitting are recorded
as events so that "raised before any resampling or classifier fitting" is a
statement about the event trace.
-/

inductive Event where
  | resample
  | fitClf

deriving DecidableEq

inductive TrainError where
  | notImplemented (msg : String)
  | sampling (msg : String)

deriving DecidableEq

/-- True exactly on the NotImplementedError outcome of train_classifier. -/
def isNotImplementedB : Except TrainError (List (List F) × List ℕ) → Bool
  | .error (.notImplemented _) => true
  | _ => false

/-- Modelled from the spec: the alternative "interpolation-based oversampler
... behind the same interface" (imblearn's SMOTE, an external library call);
only its successful completion matters to the claims, its output is left as
the balanced pass-through of the input. -/
def smoteResample (X : List (List ℚ)) (y : List ℕ) : List (List F) × List ℕ :=
  (X.map fun r => r.map F.fin, y)

/-- train_classifier (classify.py lines 131-141): the resampled training set
it fits the forest on, or the error it raises, together with the trace of
data-touching events.  'mvg' builds MultivariateGaussian(sampling_strategy =
1000) whose random_state is left None; an unrecognized name raises
NotImplementedError before anything else runs. -/
def trainClassifier (X : List (List ℚ)) (y : List ℕ) (sampler_type : String)
    (g : RNG) : Except TrainError (List (List F) × List ℕ) × List Event :=
  if sampler_type = "mvg" then
    match fitResample (some 1000) none X y g with
    | .ok r => (.ok r, [Event.resample, Event.fitClf])
    | .error e => (.error (.sampling e), [Event.resample])
  else if sampler_type = "smote" then
    (.ok (smoteResample X y), [Event.resample, Event.fitClf])
  else
    (.error (.notImplemented (sampler_type ++ " is not a recognized sampler type")), [])

/-!
Embedding of the hyperparameter sweep of optimize.main (optimize.py lines
199-216) and of test_hyperparameters (lines 19-53).  The pipeline that
test_hyperparameters validates lives outside src (classify.load_data /
aggregate_probabilities and the pickled sklearn pipeline), so the validation
step is a parameter: it either returns the evaluation data (classifier
classes, aggregated true types and predicted types) or raises.  All the
failure sources of one unit of work — set_params on a bad name, the
cross-validated pipeline fit — happen before any metric is attached to the
parameter record, as in the source, where the dict is only written after
validate_classifier and aggregate_probabilities return.
-/

structure EvalData where
  classes : List ℕ
  ytrue : List ℕ
  ypred : List ℕ

deriving DecidableEq

/-- The keys of the metric entries test_hyperparameters adds to param_set:
the Python strings 'accuracy', 'f1_score', and the per-class
'{sntype}_completeness' / '{sntype}_purity' keys, with the class coded as a
natural. -/
inductive MetricKey where
  | accuracy
  | f1score
  | completenessOf (c : ℕ)
  | purityOf (c : ℕ)

deriving DecidableEq

/-- The metric entries test_hyperparameters adds to param_set (optimize.py
lines 42-49): accuracy, macro F1, and the per-class completeness and purity
pairs. -/
def metricEntries (ev : EvalData) : List (MetricKey × F) :=
  (MetricKey.accuracy, accuracyScore ev.ytrue ev.ypred) ::
  (MetricKey.f1score, macroF1 ev.ytrue ev.ypred) ::
  (perClassMetrics ev.classes ev.ytrue ev.ypred).flatMap fun m =>
    [(MetricKey.completenessOf m.1, m.2.1), (MetricKey.purityOf m.1, m.2.2)]

/-- A result record of the sweep: the hyperparameter values the combination
was asked to test, plus whatever metrics were attached. -/
structure HPRecord where
  params : List (String × ℚ)
  metrics : List (MetricKey × F)

deriving DecidableEq

/-- test_hyperparameters (optimize.py lines 19-53) with the out-of-src
pipeline validation abstracted: on success the record is the parameter set
enriched with the computed metrics. -/
def testHyperparameters (validate : List (String × ℚ) → Except String EvalData)
    (p : List (String × ℚ)) : Except String HPRecord :=
  match validate p with
  | .error e => .error e
  | .ok ev => .ok ⟨p, metricEntries ev⟩

/-- The test_hyperparams closure of optimize.main (lines 199-204): call
test_hyperparameters, catch any exception, log it with the offending
parameter set, and return the parameter record unchanged. -/
def testHyperparamsCaught (validate : List (String × ℚ) → Except String EvalData)
    (p : List (String × ℚ)) : HPRecord × Option (List (String × ℚ) × String) :=
  match testHyperparameters validate p with
  | .ok r => (r, none)
  | .error e => (⟨p, []⟩, some (p, e))

/-- The sequential sweep of optimize.main (line 213): one row per parameter
combination, plus the log entries emitted along the way. -/
def sweepRows (validate : List (String × ℚ) → Except String EvalData)
    (ps : List (List (String × ℚ))) : List HPRecord :=
  ps.map fun p => (testHyperparamsCaught validate p).1

/-- The error log of the sweep, in emission order. -/
def sweepLog (validate : List (String × ℚ) → Except String EvalData)
    (ps : List (List (String × ℚ))) : List (List (String × ℚ) × String) :=
  ps.filterMap fun p => (testHyperparamsCaught validate p).2

theorem sumF_map_fin (l : List α) (f : α → ℚ) :
    sumF (l.map fun a => F.fin (f a)) = F.fin (l.map f).sum := by
  induction l with
  | nil => rfl
  | cons x xs ih => simp [sumF, List.foldr] at ih ⊢; rw [ih]; simp [F.add]

theorem F_add_fin (a b : ℚ) : F.add (F.fin a) (F.fin b) = F.fin (a + b) := rfl

theorem F_sub_fin (a b : ℚ) : F.sub (F.fin a) (F.fin b) = F.fin (a - b) := by
  simp [F.sub, F.neg, F.add]; ring

theorem F_mul_fin (a b : ℚ) : F.mul (F.fin a) (F.fin b) = F.fin (a * b) := rfl

theorem F_div_fin (a b : ℚ) (hb : b ≠ 0) :
    F.div (F.fin a) (F.fin b) = F.fin (a / b) := by
  simp [F.div, hb]

/-!
Helper lemmas about the resampling loop.
-/

theorem multivariateNormal_ok_nonneg {mean : List F} {cov : List (List F)} {n : ℤ}
    {g : RNG} {pr : List (List F) × RNG}
    (h : multivariateNormal mean cov n g = .ok pr) : 0 ≤ n := by
  by_contra hn
  push_neg at hn
  simp [multivariateNormal, hn] at h

theorem classStep_ok_cases {spc : Option ℤ} {seed : Option ℕ} {X : List (List ℚ)}
    {y : List ℕ} {c : ℕ} {acc acc2 : List (List F) × List ℕ × RNG}
    (h : classStep spc seed X y c acc = .ok acc2) :
    (targetN spc y c = 0 ∧ acc2 = acc) ∨
    (0 < targetN spc y c ∧ ∃ rows rs2,
      multivariateNormal (npMean (codeClassRows X y c)) (npCov (codeClassRows X y c))
        (targetN spc y c) (checkRandomState seed acc.2.2) = .ok (rows, rs2) ∧
      acc2 = (acc.1 ++ rows, acc.2.1 ++ List.replicate (targetN spc y c).toNat c,
              if seed.isNone then rs2 else acc.2.2)) := by
  by_cases hz : targetN spc y c = 0
  · left
    refine ⟨hz, ?_⟩
    simp [classStep, hz] at h
    exact h.symm
  · right
    simp only [classStep, hz, if_false] at h
    rcases hmn : multivariateNormal (npMean (codeClassRows X y c))
        (npCov (codeClassRows X y c)) (targetN spc y c)
        (checkRandomState seed acc.2.2) with e | pr
    · rw [hmn] at h; exact absurd h (by simp)
    · obtain ⟨rows, rs2⟩ := pr
      rw [hmn] at h
      refine ⟨lt_of_le_of_ne (multivariateNormal_ok_nonneg hmn) (Ne.symm hz), rows, rs2, rfl, ?_⟩
      simpa using h.symm

theorem resampleLoop_ok_shape {spc : Option ℤ} {seed : Option ℕ} {X : List (List ℚ)}
    {y : List ℕ} :
    ∀ (cs : List ℕ) (acc res : List (List F) × List ℕ × RNG),
    resampleLoop spc seed X y cs acc = .ok res →
    (∃ ext, res.1 = acc.1 ++ ext) ∧
    res.2.1 = acc.2.1 ++ (cs.flatMap fun c => List.replicate (targetN spc y c).toNat c) := by
  intro cs
  induction cs with
  | nil =>
      intro acc res h
      simp [resampleLoop] at h
      subst h
      exact ⟨⟨[], by simp⟩, by simp⟩
  | cons c cs ih =>
      intro acc res h
      simp only [resampleLoop] at h
      rcases hst : classStep spc seed X y c acc with e | acc2
      · rw [hst] at h; exact absurd h (by simp)
      · rw [hst] at h
        obtain ⟨⟨ext, hX⟩, hY⟩ := ih acc2 res h
        rcases classStep_ok_cases hst with ⟨hz, rfl⟩ | ⟨_, rows, rs2, _, rfl⟩
        · refine ⟨⟨ext, hX⟩, ?_⟩
          rw [hY]
          simp [hz]
        · refine ⟨⟨rows ++ ext, by simpa using hX⟩, ?_⟩
          rw [hY]
          simp

theorem resampleLoop_ok_nonneg {spc : Option ℤ} {seed : Option ℕ} {X : List (List ℚ)}
    {y : List ℕ} :
    ∀ (cs : List ℕ) (acc res : List (List F) × List ℕ × RNG),
    resampleLoop spc seed X y cs acc = .ok res →
    ∀ c ∈ cs, 0 ≤ targetN spc y c := by
  intro cs
  induction cs with
  | nil => intro acc res _ c hc; exact absurd hc (by simp)
  | cons c0 cs ih =>
      intro acc res h c hc
      simp only [resampleLoop] at h
      rcases hst : classStep spc seed X y c0 acc with e | acc2
      · rw [hst] at h; exact absurd h (by simp)
      · rw [hst] at h
        rcases List.mem_cons.mp hc with rfl | hmem
        · rcases classStep_ok_cases hst with ⟨hz, _⟩ | ⟨hpos, _⟩
          · exact le_of_eq hz.symm
          · exact le_of_lt hpos
        · exact ih acc2 res h c hmem

theorem resampleLoop_error_of_mem {spc : Option ℤ} {seed : Option ℕ}
    {X : List (List ℚ)} {y : List ℕ} {c : ℕ}
    (hfail : ∀ acc, ∃ e, classStep spc seed X y c acc = .error e) :
    ∀ (cs : List ℕ), c ∈ cs → ∀ acc, ∃ e, resampleLoop spc seed X y cs acc = .error e := by
  intro cs
  induction cs with
  | nil => intro hc; exact absurd hc (by simp)
  | cons c0 cs ih =>
      intro hc acc
      rcases List.mem_cons.mp hc with rfl | hmem
      · obtain ⟨e, he⟩ := hfail acc
        exact ⟨e, by simp [resampleLoop, he]⟩
      · rcases hst : classStep spc seed X y c0 acc with e | acc2
        · exact ⟨e, by simp [resampleLoop, hst]⟩
        · obtain ⟨e, he⟩ := ih hmem acc2
          exact ⟨e, by simp [resampleLoop, hst, he]⟩

theorem classesOf_nodup (y : List ℕ) : (classesOf y).Nodup :=
  ((List.perm_insertionSort (· ≤ ·) y.dedup).nodup_iff).mpr y.nodup_dedup

theorem mem_classesOf {y : List ℕ} {c : ℕ} : c ∈ classesOf y ↔ c ∈ y := by
  rw [classesOf, (List.perm_insertionSort (· ≤ ·) y.dedup).mem_iff, List.mem_dedup]

theorem count_flatMap_replicate_not_mem (k : ℕ → ℕ) (c : ℕ) :
    ∀ cs : List ℕ, c ∉ cs →
    ((cs.flatMap fun c2 => List.replicate (k c2) c2).count c) = 0 := by
  intro cs
  induction cs with
  | nil => intro _; rfl
  | cons c0 cs ih =>
      intro hc
      have hne : c0 ≠ c := fun hEq => hc (hEq ▸ List.mem_cons_self c0 cs)
      have hnc : c ∉ cs := fun hmem => hc (List.mem_cons_of_mem c0 hmem)
      simp [List.flatMap_cons, List.count_append, ih hnc, List.count_replicate, hne]

theorem count_flatMap_replicate (k : ℕ → ℕ) (c : ℕ) :
    ∀ cs : List ℕ, cs.Nodup → c ∈ cs →
    ((cs.flatMap fun c2 => List.replicate (k c2) c2).count c) = k c := by
  intro cs
  induction cs with
  | nil => intro _ hc; exact absurd hc (by simp)
  | cons c0 cs ih =>
      intro hnd hc
      rcases List.mem_cons.mp hc with rfl | hmem
      · have hnc : c ∉ cs := (List.nodup_cons.mp hnd).1
        simp [List.flatMap_cons, List.count_append, List.count_replicate,
          count_flatMap_replicate_not_mem k c cs hnc]
      · have hne : c0 ≠ c := fun hEq => (List.nodup_cons.mp hnd).1 (hEq ▸ hmem)
        simp [List.flatMap_cons, List.count_append, List.count_replicate, hne,
          ih (List.nodup_cons.mp hnd).2 hmem]

theorem targetClassIndices_length (c : ℕ) :
    ∀ y : List ℕ, (targetClassIndices y c).length = y.count c := by
  intro y
  induction y with
  | nil => rfl
  | cons a y ih =>
      unfold targetClassIndices at ih ⊢
      rw [List.length_cons, List.range_succ_eq_map, List.filter_cons, List.filter_map]
      have hfun : ((fun i => decide ((a :: y).getD i 0 = c)) ∘ Nat.succ)
          = fun i => decide (y.getD i 0 = c) := by
        funext i
        simp
      rw [hfun]
      by_cases ha : a = c
      · simp [ha, List.count_cons]
        simpa [List.getD] using ih
      · simp [ha, List.count_cons]
        simpa [List.getD] using ih

theorem fitResample_ok_parts {spc : Option ℤ} {seed : Option ℕ} {X : List (List ℚ)}
    {y : List ℕ} {g : RNG} {Xr : List (List F)} {yr : List ℕ}
    (h : fitResample spc seed X y g = .ok (Xr, yr)) :
    (∃ ext, Xr = X.map (fun r => r.map F.fin) ++ ext) ∧
    yr = y ++ ((classesOf y).flatMap fun c => List.replicate (targetN spc y c).toNat c) ∧
    ∀ c ∈ classesOf y, 0 ≤ targetN spc y c := by
  unfold fitResample at h
  rcases hl : resampleLoop spc seed X y (classesOf y)
      (X.map (fun r => r.map F.fin), y, g) with e | res
  · rw [hl] at h; exact absurd h (by simp [Except.map])
  · rw [hl] at h
    simp [Except.map] at h
    obtain ⟨⟨ext, hX⟩, hY⟩ := resampleLoop_ok_shape (classesOf y) _ res hl
    refine ⟨⟨ext, ?_⟩, ?_, resampleLoop_ok_nonneg (classesOf y) _ res hl⟩
    · rw [← h.1, hX]
    · rw [← h.2, hY]

theorem resampleLoop_seeded_rng {spc : Option ℤ} {X : List (List ℚ)} {y : List ℕ}
    {s : ℕ} :
    ∀ (cs : List ℕ) (X0 : List (List F)) (y0 : List ℕ) (g1 g2 : RNG),
    (resampleLoop spc (some s) X y cs (X0, y0, g1)).map (fun a => (a.1, a.2.1)) =
    (resampleLoop spc (some s) X y cs (X0, y0, g2)).map (fun a => (a.1, a.2.1)) := by
  intro cs
  induction cs with
  | nil => intro X0 y0 g1 g2; rfl
  | cons c cs ih =>
      intro X0 y0 g1 g2
      simp only [resampleLoop, classStep, checkRandomState, Option.getD_some,
        Option.isNone_some, Bool.false_eq_true, if_false]
      by_cases hz : targetN spc y c = 0
      · simp only [hz, if_true, reduceIte]
        exact ih X0 y0 g1 g2
      · simp only [hz, if_false, reduceIte]
        rcases multivariateNormal (npMean (codeClassRows X y c))
            (npCov (codeClassRows X y c)) (targetN spc y c) s with e | pr
        · rfl
        · exact ih _ _ g1 g2

theorem getD_map_range {α : Type} (f : ℕ → α) {n i : ℕ} (hi : i < n) (dflt : α) :
    ((List.range n).map f).getD i dflt = f i := by
  rw [List.getD_eq_getElem?_getD, List.getElem?_map, List.getElem?_range hi]
  rfl

theorem codeClassRows_eq_spec (c : ℕ) :
    ∀ (X : List (List ℚ)) (y : List ℕ), X.length = y.length →
    codeClassRows X y c = specClassRows X y c := by
  intro X y
  induction y generalizing X with
  | nil =>
      intro h
      cases X with
      | nil => rfl
      | cons _ _ => exact absurd h (by simp)
  | cons a y ih =>
      intro h
      cases X with
      | nil => exact absurd h (by simp)
      | cons x X =>
          have hlen : X.length = y.length := by simpa using h
          unfold codeClassRows targetClassIndices at ih ⊢
          unfold specClassRows at ih ⊢
          simp only [List.zip_cons_cons, List.filterMap_cons, List.length_cons,
            List.range_succ_eq_map, List.filter_cons, List.getD_cons_zero]
          have hfun : ((fun i => decide ((a :: y).getD i 0 = c)) ∘ Nat.succ)
              = fun i => decide (y.getD i 0 = c) := by
            funext i
            simp
          rw [List.filter_map, hfun]
          have hcomp : ((fun i => (x :: X).getD i []) ∘ Nat.succ) = fun i => X.getD i [] := by
            funext i
            simp
          by_cases ha : a = c
          · rw [if_pos (by simp [ha] : decide (a = c) = true)]
            rw [List.map_cons, List.map_map, hcomp, List.getD_cons_zero, ih X hlen]
            simp [ha]
          · rw [if_neg (by simp [ha] : ¬ decide (a = c) = true)]
            rw [List.map_map, hcomp, ih X hlen]
            simp [ha]

theorem codeClassRows_length (X : List (List ℚ)) (y : List ℕ) (c : ℕ) :
    (codeClassRows X y c).length = y.count c := by
  rw [codeClassRows, List.length_map, targetClassIndices_length]

theorem codeClassRows_subset {X : List (List ℚ)} {y : List ℕ} {c : ℕ}
    (hlen : X.length = y.length) :
    ∀ r ∈ codeClassRows X y c, r ∈ X := by
  intro r hr
  rw [codeClassRows_eq_spec c X y hlen] at hr
  obtain ⟨p, hp, hpr⟩ := List.mem_filterMap.mp hr
  have : p.1 = r := by
    by_cases h2 : p.2 = c
    · simpa [h2] using hpr
    · simp [h2] at hpr
  exact this ▸ List.of_mem_zip hp |>.1

theorem headD_length_of_uniform {Xc : List (List ℚ)} {d : ℕ} (hne : Xc ≠ [])
    (hd : ∀ r ∈ Xc, r.length = d) : (Xc.headD []).length = d := by
  cases Xc with
  | nil => exact absurd rfl hne
  | cons r rest => exact hd r (List.mem_cons_self r rest)

theorem npMean_eq_spec {Xc : List (List ℚ)} {d : ℕ} (hne : Xc ≠ [])
    (hd : ∀ r ∈ Xc, r.length = d) :
    npMean Xc = (specMean d Xc).map F.fin := by
  have hlen : (Xc.headD []).length = d := headD_length_of_uniform hne hd
  have hn : ((Xc.length : ℚ)) ≠ 0 := by
    have : Xc.length ≠ 0 := fun h0 => hne (List.length_eq_zero.mp h0)
    exact_mod_cast this
  unfold npMean specMean
  rw [hlen, List.map_map]
  refine List.map_congr_left fun j _ => ?_
  rw [sumF_map_fin, F_div_fin _ _ hn]
  rfl

theorem covFact_eq {n : ℕ} (h2 : 2 ≤ n) : covFact n = (n : ℚ) - 1 := by
  have : ¬ ((n : ℚ) - 1 ≤ 0) := by
    have : (2 : ℚ) ≤ (n : ℚ) := by exact_mod_cast h2
    linarith
  simp [covFact, this]

theorem npCov_eq_spec {Xc : List (List ℚ)} {d : ℕ} (h2 : 2 ≤ Xc.length)
    (hd : ∀ r ∈ Xc, r.length = d) :
    npCov Xc = (specCov d Xc).map fun row => row.map F.fin := by
  have hne : Xc ≠ [] := by
    intro h0
    rw [h0] at h2
    exact absurd h2 (by simp)
  have hlen : (Xc.headD []).length = d := headD_length_of_uniform hne hd
  have hfact : ((Xc.length : ℚ) - 1) ≠ 0 := by
    have : (2 : ℚ) ≤ (Xc.length : ℚ) := by exact_mod_cast h2
    intro h
    linarith
  have hmean : ∀ i < d, (npMean Xc).getD i F.nan = F.fin ((specMean d Xc).getD i 0) := by
    intro i hi
    rw [npMean_eq_spec hne hd]
    unfold specMean
    rw [List.map_map, getD_map_range _ hi, getD_map_range _ hi]
    rfl
  unfold npCov
  rw [hlen]
  unfold specCov
  rw [List.map_map]
  refine List.map_congr_left fun i hi => ?_
  simp only [Function.comp_def]
  rw [List.map_map]
  refine List.map_congr_left fun j hj => ?_
  simp only [Function.comp_def]
  have hi2 : i < d := List.mem_range.mp hi
  have hj2 : j < d := List.mem_range.mp hj
  rw [covFact_eq h2, F_div_fin _ _ hfact]
  have hinner : (Xc.map fun r =>
      F.mul (F.sub (F.fin (r.getD i 0)) ((npMean Xc).getD i F.nan))
            (F.sub (F.fin (r.getD j 0)) ((npMean Xc).getD j F.nan)))
      = Xc.map fun r => F.fin
          ((r.getD i 0 - (specMean d Xc).getD i 0) * (r.getD j 0 - (specMean d Xc).getD j 0)) := by
    refine List.map_congr_left fun r _ => ?_
    rw [hmean i hi2, hmean j hj2, F_sub_fin, F_sub_fin, F_mul_fin]
  rw [hinner, sumF_map_fin, F_mul_fin]
  congr 1
  field_simp

theorem npMean_single (x : List ℚ) :
    npMean [x] = (List.range x.length).map fun j => F.fin (x.getD j 0) := by
  unfold npMean
  refine List.map_congr_left fun j _ => ?_
  show F.div (sumF [F.fin (x.getD j 0)]) (F.fin ((1 : ℕ) : ℚ)) = F.fin (x.getD j 0)
  rw [show sumF [F.fin (x.getD j 0)] = F.fin (x.getD j 0 + 0) from rfl]
  rw [F_div_fin _ _ (by norm_num)]
  norm_num

theorem npCov_single_nan (x : List ℚ) :
    ∀ row ∈ npCov [x], ∀ v ∈ row, v = F.nan := by
  intro row hrow v hv
  unfold npCov at hrow
  obtain ⟨i, hi, rfl⟩ := List.mem_map.mp hrow
  obtain ⟨j, hj, rfl⟩ := List.mem_map.mp hv
  have hi2 : i < x.length := List.mem_range.mp hi
  have hj2 : j < x.length := List.mem_range.mp hj
  have hmean : ∀ k, k < x.length → (npMean [x]).getD k F.nan = F.fin (x.getD k 0) := by
    intro k hk
    rw [npMean_single, getD_map_range _ hk]
  have hfact : covFact ([x] : List (List ℚ)).length = 0 := by
    show covFact 1 = 0
    norm_num [covFact]
  rw [hfact]
  rw [show (F.div (F.fin 1) (F.fin 0)) = F.pinf by norm_num [F.div]]
  rw [hmean i hi2, hmean j hj2]
  rw [show ([x].map fun r =>
        F.mul (F.sub (F.fin (r.getD i 0)) (F.fin (x.getD i 0)))
              (F.sub (F.fin (r.getD j 0)) (F.fin (x.getD j 0))))
      = [F.fin ((x.getD i 0 - x.getD i 0) * (x.getD j 0 - x.getD j 0))] by
    rw [List.map_singleton, F_sub_fin, F_sub_fin, F_mul_fin]]
  rw [show sumF [F.fin ((x.getD i 0 - x.getD i 0) * (x.getD j 0 - x.getD j 0))]
      = F.fin ((x.getD i 0 - x.getD i 0) * (x.getD j 0 - x.getD j 0) + 0) from rfl]
  norm_num [F.mul]

theorem codeClassRows_single {X : List (List ℚ)} {y : List ℕ} {c : ℕ}
    (hlen : X.length = y.length) (h1 : y.count c = 1) :
    ∃ x, codeClassRows X y c = [x] ∧ x ∈ X := by
  have hl : (codeClassRows X y c).length = 1 := by
    rw [codeClassRows_length, h1]
  obtain ⟨x, hx⟩ := List.length_eq_one.mp hl
  exact ⟨x, hx, codeClassRows_subset hlen x (hx ▸ List.mem_cons_self x [])⟩

theorem classStep_single_sample_fails {seed : Option ℕ} {X : List (List ℚ)}
    {y : List ℕ} {c : ℕ} {T : ℤ} (hlen : X.length = y.length) (h1 : y.count c = 1)
    (hne : ∀ r ∈ X, r ≠ []) (hT : 1 < T) :
    ∀ acc, classStep (some T) seed X y c acc =
      .error ("LinAlgError: SVD did not converge") := by
  intro acc
  have hn : targetN (some T) y c = T - 1 := by
    simp [targetN, targetClassIndices_length, h1]
  have hnz : ¬ targetN (some T) y c = 0 := by omega
  obtain ⟨x, hxrows, hxX⟩ := codeClassRows_single hlen h1
  have hxne : x ≠ [] := hne x hxX
  have hd : 0 < x.length := List.length_pos.mpr hxne
  have hx0 : (0 : ℕ) ∈ List.range x.length := List.mem_range.mpr hd
  have hrowmem : ((List.range x.length).map fun j =>
      F.mul (sumF ([x].map fun r =>
        F.mul (F.sub (F.fin (r.getD 0 0)) ((npMean [x]).getD 0 F.nan))
              (F.sub (F.fin (r.getD j 0)) ((npMean [x]).getD j F.nan))))
        (F.div (F.fin 1) (F.fin (covFact ([x] : List (List ℚ)).length)))) ∈ npCov [x] := by
    unfold npCov
    simp only [List.headD_cons]
    exact List.mem_map_of_mem _ hx0
  have hcov : (npCov [x]).any (fun row => row.any fun v => !v.isFiniteB) = true := by
    rw [List.any_eq_true]
    refine ⟨_, hrowmem, ?_⟩
    rw [List.any_eq_true]
    refine ⟨_, List.mem_map_of_mem _ hx0, ?_⟩
    have hnan := npCov_single_nan x _ hrowmem _ (List.mem_map_of_mem _ hx0)
    rw [hnan]
    rfl
  simp only [classStep, hnz, if_false, reduceIte]
  rw [hxrows]
  simp [multivariateNormal, hcov, show ¬ ((targetN (some T) y c) < 0) by omega]

/-- Claim C10: for every input (X, y) on which MultivariateGaussian
fit-resample returns, the output keeps the original samples as an
order-preserving prefix — the first len(X) rows equal X element-wise and the
first len(y) labels equal y — and synthetic rows are only appended after
this prefix, the appended labels being, class by class, exactly the block
replicated for the class the samples were generated for. -/
theorem mvg_fit_resample_keeps_originals (spc : Option ℤ) (seed : Option ℕ)
    (X : List (List ℚ)) (y : List ℕ) (g : RNG) (Xr : List (List F)) (yr : List ℕ)
    (h : fitResample spc seed X y g = .ok (Xr, yr)) :
    Xr.take X.length = X.map (fun r => r.map F.fin) ∧
    yr.take y.length = y ∧
    yr.drop y.length = (classesOf y).flatMap
      (fun c => List.replicate (targetN spc y c).toNat c) := by
  obtain ⟨⟨ext, hX⟩, hY, _⟩ := fitResample_ok_parts h
  refine ⟨?_, ?_, ?_⟩
  · rw [hX, show X.length = (X.map fun r => r.map F.fin).length from
      (List.length_map _ _).symm, List.take_left]
  · rw [hY, List.take_left]
  · rw [hY, List.drop_left]

/-- Witness for mvg_fit_resample_keeps_originals at a concrete input on
which fit-resample succeeds. -/
theorem mvg_fit_resample_keeps_originals_w :
    fitResample none none [[0,0],[5,5]] [0,1] 0 =
      .ok ([[F.fin 0, F.fin 0],[F.fin 5, F.fin 5]], [0,1]) ∧
    (([[F.fin 0, F.fin 0],[F.fin 5, F.fin 5]] : List (List F)).take
        ([[(0:ℚ),0],[5,5]] : List (List ℚ)).length =
      ([[(0:ℚ),0],[5,5]] : List (List ℚ)).map (fun r => r.map F.fin) ∧
    ([0,1] : List ℕ).take ([0,1] : List ℕ).length = [0,1] ∧
    ([0,1] : List ℕ).drop ([0,1] : List ℕ).length = (classesOf [0,1]).flatMap
      (fun c => List.replicate (targetN none [0,1] c).toNat c)) :=
  ⟨by with_unfolding_all rfl,
   mvg_fit_resample_keeps_originals none none [[0,0],[5,5]] [0,1] 0 _ _
     (by with_unfolding_all rfl)⟩

/-- Claim C2 (amended): in samples-per-class mode with integer target T,
whenever fit-resample returns, the per-class count of the output equals
max(original_count, T), a class with target_count - current_count = 0 is
skipped (nothing drawn, nothing removed), and every original row appears
unmodified at its original position; but when target_count - current_count
is negative the class is not skipped — the draw of a negative number of
samples raises ValueError, so no output is produced at all. -/
theorem mvg_samples_per_class_counts (T : ℤ) (seed : Option ℕ)
    (X : List (List ℚ)) (y : List ℕ) (g : RNG) (Xr : List (List F)) (yr : List ℕ)
    (h : fitResample (some T) seed X y g = .ok (Xr, yr)) :
    (∀ c ∈ classesOf y, (yr.count c : ℤ) = max (y.count c : ℤ) T) ∧
    Xr.take X.length = X.map (fun r => r.map F.fin) ∧
    yr.take y.length = y := by
  obtain ⟨⟨ext, hX⟩, hY, hnn⟩ := fitResample_ok_parts h
  refine ⟨?_, ?_, ?_⟩
  · intro c hc
    have hcnt := count_flatMap_replicate (fun c2 => (targetN (some T) y c2).toNat) c
        (classesOf y) (classesOf_nodup y) hc
    rw [hY, List.count_append, hcnt]
    have h0 := hnn c hc
    have hT : targetN (some T) y c = T - (y.count c : ℤ) := by
      simp [targetN, targetClassIndices_length]
    rw [hT] at h0
    simp only [hT]
    push_cast
    omega
  · rw [hX, show X.length = (X.map fun r => r.map F.fin).length from
      (List.length_map _ _).symm, List.take_left]
  · rw [hY, List.take_left]

/-- Witness for mvg_samples_per_class_counts: target 3 on a two-sample class
succeeds and yields exactly 3 = max(2, 3) labelled samples. -/
theorem mvg_samples_per_class_counts_w :
    fitResample (some 3) none [[0,0],[5,5]] [0,0] 0 =
      .ok ([[F.fin 0, F.fin 0],[F.fin 5, F.fin 5],[F.fin (5/2), F.fin (5/2)]], [0,0,0]) ∧
    ((∀ c ∈ classesOf [0,0], (([0,0,0] : List ℕ).count c : ℤ) =
        max (([0,0] : List ℕ).count c : ℤ) 3) ∧
     ([[F.fin 0, F.fin 0],[F.fin 5, F.fin 5],[F.fin (5/2), F.fin (5/2)]] : List (List F)).take
        ([[(0:ℚ),0],[5,5]] : List (List ℚ)).length =
       ([[(0:ℚ),0],[5,5]] : List (List ℚ)).map (fun r => r.map F.fin) ∧
     ([0,0,0] : List ℕ).take ([0,0] : List ℕ).length = [0,0]) :=
  ⟨by with_unfolding_all rfl,
   mvg_samples_per_class_counts 3 none [[0,0],[5,5]] [0,0] 0 _ _
     (by with_unfolding_all rfl)⟩

/-- Counterexample to claim C2 as stated: for a class of 2 samples and
target T = 1, target_count - current_count = -1 is not skipped; the loop
reaches the multivariate-normal draw with a negative sample count and
raises ValueError, instead of leaving the class alone and returning the
original data. -/
theorem mvg_samples_per_class_counts_cex :
    fitResample (some 1) none [[0,0],[1,1]] [0,0] 0 =
      .error ("ValueError: negative dimensions are not allowed") ∧
    ([0,0] : List ℕ).count 0 = 2 :=
  ⟨rfl, rfl⟩

/-- Claim C3 (amended): for a class with exactly one original sample the
fitted covariance matrix is all NaN, not all zeros — np.cov has zero degrees
of freedom and multiplies the zero centred sums by true_divide(1, 0.0) —
and oversampling that class to a target T > 1 does not produce T - 1
duplicates of the sample: the multivariate-normal draw raises a
linear-algebra error (SVD of a non-finite matrix), so fit-resample raises
instead of returning. -/
theorem mvg_single_sample_class (T : ℤ) (X : List (List ℚ)) (y : List ℕ) (c : ℕ)
    (hlen : X.length = y.length) (h1 : y.count c = 1) (hne : ∀ r ∈ X, r ≠ [])
    (hT : 1 < T) :
    (∀ row ∈ npCov (codeClassRows X y c), ∀ v ∈ row, v = F.nan) ∧
    ∀ (seed : Option ℕ) (g : RNG), ∃ e, fitResample (some T) seed X y g = .error e := by
  obtain ⟨x, hxrows, hxX⟩ := codeClassRows_single hlen h1
  constructor
  · rw [hxrows]
    exact npCov_single_nan x
  · intro seed g
    have hmem : c ∈ classesOf y := mem_classesOf.mpr (List.count_pos_iff.mp (by omega))
    have hfail : ∀ acc, ∃ e, classStep (some T) seed X y c acc = .error e :=
      fun acc => ⟨_, classStep_single_sample_fails hlen h1 hne hT acc⟩
    obtain ⟨e, he⟩ := resampleLoop_error_of_mem hfail (classesOf y) hmem
      (X.map (fun r => r.map F.fin), y, g)
    exact ⟨e, by unfold fitResample; rw [he]; rfl⟩

/-- Witness for mvg_single_sample_class at a concrete one-sample class. -/
theorem mvg_single_sample_class_w :
    (∀ row ∈ npCov (codeClassRows [[(1:ℚ),2]] [0] 0), ∀ v ∈ row, v = F.nan) ∧
    ∀ (seed : Option ℕ) (g : RNG), ∃ e,
      fitResample (some 3) seed [[(1:ℚ),2]] [0] g = .error e :=
  mvg_single_sample_class 3 [[1,2]] [0] 0 rfl rfl
    (by intro r hr; simp at hr; simp [hr]) (by decide)

/-- Counterexample to claim C3 as stated: the covariance matrix fitted to
the one-sample class is the all-NaN matrix rather than the all-zeros
matrix, and oversampling the class to T = 3 raises LinAlgError rather than
returning two duplicates of the sample. -/
theorem mvg_single_sample_class_cex :
    npCov (codeClassRows [[(1:ℚ),2]] [0] 0) = [[F.nan, F.nan], [F.nan, F.nan]] ∧
    F.nan ≠ F.fin 0 ∧
    fitResample (some 3) none [[(1:ℚ),2]] [0] 0 =
      .error ("LinAlgError: SVD did not converge") :=
  ⟨by with_unfolding_all rfl, by simp, by with_unfolding_all rfl⟩

/-- Claim C5: for every class needing augmentation (here: any class with at
least 2 members, so that the unbiased estimator is defined), the parameters
handed to the Gaussian draw are computed over exactly the rows of that
class, and equal the sample mean vector and the sample covariance matrix
with the N-1 (unbiased) denominator over that subset. -/
theorem mvg_class_gaussian_parameters (X : List (List ℚ)) (y : List ℕ) (c d : ℕ)
    (hlen : X.length = y.length) (hd : ∀ r ∈ X, r.length = d)
    (h2 : 2 ≤ y.count c) :
    codeClassRows X y c = specClassRows X y c ∧
    npMean (codeClassRows X y c) = (specMean d (specClassRows X y c)).map F.fin ∧
    npCov (codeClassRows X y c) =
      (specCov d (specClassRows X y c)).map fun row => row.map F.fin := by
  have hsub : codeClassRows X y c = specClassRows X y c := codeClassRows_eq_spec c X y hlen
  have hcl : 2 ≤ (codeClassRows X y c).length := by
    rw [codeClassRows_length]
    exact h2
  have hdc : ∀ r ∈ codeClassRows X y c, r.length = d :=
    fun r hr => hd r (codeClassRows_subset hlen r hr)
  have hnec : codeClassRows X y c ≠ [] := by
    intro h0
    rw [h0] at hcl
    exact absurd hcl (by simp)
  refine ⟨hsub, ?_, ?_⟩
  · rw [npMean_eq_spec hnec hdc, hsub]
  · rw [npCov_eq_spec hcl hdc, hsub]

/-- Witness for mvg_class_gaussian_parameters at a concrete two-sample
class. -/
theorem mvg_class_gaussian_parameters_w :
    codeClassRows [[0,0],[5,5]] [0,0] 0 = specClassRows [[0,0],[5,5]] [0,0] 0 ∧
    npMean (codeClassRows [[0,0],[5,5]] [0,0] 0) =
      (specMean 2 (specClassRows [[0,0],[5,5]] [0,0] 0)).map F.fin ∧
    npCov (codeClassRows [[0,0],[5,5]] [0,0] 0) =
      (specCov 2 (specClassRows [[0,0],[5,5]] [0,0] 0)).map fun row => row.map F.fin :=
  mvg_class_gaussian_parameters [[0,0],[5,5]] [0,0] 0 2 rfl
    (by intro r hr; simp at hr; rcases hr with h | h <;> simp [h]) (by decide)

/-- Claim C9: the oversampler accepts a seed: for a fixed integer
random_state the fit-resample output is identical across two calls whatever
the global generator state is, and with random_state left None two calls
around different global states can return different outputs. -/
theorem mvg_random_state_reproducibility :
    (∀ (spc : Option ℤ) (s : ℕ) (X : List (List ℚ)) (y : List ℕ) (g1 g2 : RNG),
      fitResample spc (some s) X y g1 = fitResample spc (some s) X y g2) ∧
    fitResample (some 3) none [[0,0],[5,5]] [0,0] 0 ≠
      fitResample (some 3) none [[0,0],[5,5]] [0,0] 1 := by
  constructor
  · intro spc s X y g1 g2
    unfold fitResample
    exact resampleLoop_seeded_rng (classesOf y) _ y g1 g2
  · rw [show fitResample (some 3) none [[0,0],[5,5]] [0,0] 0 =
        .ok ([[F.fin 0, F.fin 0],[F.fin 5, F.fin 5],[F.fin (5/2), F.fin (5/2)]], [0,0,0])
        by with_unfolding_all rfl,
       show fitResample (some 3) none [[0,0],[5,5]] [0,0] 1 =
        .ok ([[F.fin 0, F.fin 0],[F.fin 5, F.fin 5],[F.fin (7/2), F.fin (7/2)]], [0,0,0])
        by with_unfolding_all rfl]
    intro hcontra
    simp only [Except.ok.injEq, Prod.mk.injEq, List.cons.injEq, F.fin.injEq] at hcontra
    have : (5 : ℚ)/2 = 7/2 := hcontra.1.2.2.1.1
    norm_num at this

/-!
Helper lemmas about the KFold fold structure.
-/

theorem indicator_sum_min (m : ℕ) :
    ∀ j : ℕ, ((List.range j).map fun i => if i < m then 1 else 0).sum = min m j := by
  intro j
  induction j with
  | zero => simp
  | succ j ih =>
      rw [List.range_succ, List.map_append, List.sum_append]
      simp only [List.map_cons, List.map_nil, List.sum_cons, List.sum_nil, ih]
      by_cases hj : j < m
      · simp [hj]
        omega
      · simp [hj]
        omega

theorem sum_map_add_split (a m : ℕ) :
    ∀ j : ℕ, ((List.range j).map fun i => a + if i < m then 1 else 0).sum
      = ((List.range j).map fun _ => a).sum
        + ((List.range j).map fun i => if i < m then 1 else 0).sum := by
  intro j
  induction j with
  | zero => simp
  | succ j ih =>
      rw [List.range_succ]
      simp only [List.map_append, List.sum_append, List.map_cons, List.map_nil,
        List.sum_cons, List.sum_nil] at ih ⊢
      omega

theorem foldSizes_sum (k n : ℕ) (hk : 0 < k) : (foldSizes k n).sum = n := by
  unfold foldSizes
  rw [sum_map_add_split, indicator_sum_min]
  have hconst : ((List.range k).map fun _ => n / k).sum = k * (n / k) := by
    rw [List.map_const']
    simp [List.sum_replicate, Nat.smul_one_eq_cast]
  have hmod : n % k < k := Nat.mod_lt n hk
  rw [hconst, min_eq_left (le_of_lt hmod)]
  exact Nat.div_add_mod n k

theorem foldSizes_length (k n : ℕ) : (foldSizes k n).length = k := by
  simp [foldSizes]

theorem blocksFrom_flatten : ∀ (szs : List ℕ) (start : ℕ),
    (blocksFrom szs start).flatten = List.range' start szs.sum := by
  intro szs
  induction szs with
  | nil => intro start; rfl
  | cons sz rest ih =>
      intro start
      simp only [blocksFrom, List.flatten_cons, ih, List.sum_cons]
      have := List.range'_append start sz rest.sum 1
      simpa [Nat.add_comm] using this

theorem blocksFrom_length : ∀ (szs : List ℕ) (start : ℕ),
    (blocksFrom szs start).length = szs.length := by
  intro szs
  induction szs with
  | nil => intro start; rfl
  | cons sz rest ih => intro start; simp [blocksFrom, ih]

theorem dedup_length_le (ids : List ℕ) : ids.dedup.length ≤ ids.length :=
  List.Sublist.length_le (List.dedup_sublist ids)

/-- Claim C4 (amended): cross-validation on a dataset with G ≥ 2 distinct
group ids produces exactly G folds whose test index sets are pairwise
disjoint and whose union (in fact, concatenation in order) is exactly the
set of all row indices; for G = 1, however, KFold(1) raises ValueError and
no folds are produced. -/
theorem kfold_validation_fold_partition (ids : List ℕ)
    (hG : 2 ≤ ids.dedup.length) :
    ∃ folds, validateTestFolds ids = some folds ∧
      folds.length = ids.dedup.length ∧
      folds.flatten = List.range ids.length ∧
      List.Pairwise List.Disjoint folds := by
  have hGn : ids.dedup.length ≤ ids.length := dedup_length_le ids
  have hcond : ¬ (ids.dedup.length < 2 ∨ ids.length < ids.dedup.length) := by omega
  refine ⟨blocksFrom (foldSizes ids.dedup.length ids.length) 0, ?_, ?_, ?_, ?_⟩
  · simp [validateTestFolds, kfoldTestFolds, hcond]
  · rw [blocksFrom_length, foldSizes_length]
  · rw [blocksFrom_flatten, foldSizes_sum _ _ (by omega), List.range_eq_range']
  · have hnd : (blocksFrom (foldSizes ids.dedup.length ids.length) 0).flatten.Nodup := by
      rw [blocksFrom_flatten, foldSizes_sum _ _ (by omega), ← List.range_eq_range']
      exact List.nodup_range _
    exact (List.nodup_flatten.mp hnd).2

/-- Witness for kfold_validation_fold_partition on a three-row, two-group
table. -/
theorem kfold_validation_fold_partition_w :
    2 ≤ ([0,1,0] : List ℕ).dedup.length ∧
    ∃ folds, validateTestFolds [0,1,0] = some folds ∧
      folds.length = ([0,1,0] : List ℕ).dedup.length ∧
      folds.flatten = List.range ([0,1,0] : List ℕ).length ∧
      List.Pairwise List.Disjoint folds :=
  ⟨by decide, kfold_validation_fold_partition [0,1,0] (by decide)⟩

/-- Counterexample to claim C4 as stated: a dataset whose rows all share one
group id has G = 1, and the code produces no folds at all — KFold(1) raises
ValueError — rather than the one fold the claim promises. -/
theorem kfold_validation_fold_partition_cex :
    ([0,0] : List ℕ).dedup.length = 1 ∧ validateTestFolds [0,0] = none := by
  decide

/-- Claim C1 is contradicted by the code: validate_classifier builds plain
KFold(len(np.unique(ids))) over row positions, ignoring the grouping key.
On the table with id column [0,1,0] the two test folds are [0,1] and [2]:
group 0 appears in both test folds, and the training rows of the second
fold, [0,1], include row 0, which shares group 0 with that fold's test row
2 — so row 2's out-of-fold prediction comes from a classifier whose
training data contained its own group. -/
theorem kfold_group_leakage :
    validateTestFolds [0,1,0] = some [[0,1],[2]] ∧
    foldsContainingGroup [0,1,0] [[0,1],[2]] 0 = 2 ∧
    kfoldTrainOf 3 [2] = [0,1] ∧
    ([0,1,0] : List ℕ).getD 0 0 = 0 ∧ ([0,1,0] : List ℕ).getD 2 0 = 0 := by
  decide

/-!
Helper lemmas about the confusion-matrix metrics.
-/

theorem cmLabels_nodup (yt yp : List ℕ) : (cmLabels yt yp).Nodup :=
  ((List.perm_insertionSort (· ≤ ·) (yt ++ yp).dedup).nodup_iff).mpr (yt ++ yp).nodup_dedup

theorem mem_cmLabels {yt yp : List ℕ} {t : ℕ} :
    t ∈ cmLabels yt yp ↔ t ∈ yt ++ yp := by
  rw [cmLabels, (List.perm_insertionSort (· ≤ ·) (yt ++ yp).dedup).mem_iff, List.mem_dedup]

theorem getD_map_lt {α β : Type} (f : α → β) (l : List α) (i : ℕ) (hi : i < l.length)
    (d : β) (d2 : α) : (l.map f).getD i d = f (l.getD i d2) := by
  rw [List.getD_eq_getElem?_getD, List.getElem?_map, List.getElem?_eq_getElem hi]
  rw [List.getD_eq_getElem?_getD, List.getElem?_eq_getElem hi]
  rfl

theorem sum_indicator_pair_zero (t : ℕ) (pr : ℕ × ℕ) :
    ∀ L : List ℕ, pr.2 ∉ L →
    (L.map fun p => if pr.1 = t ∧ pr.2 = p then 1 else 0).sum = 0 := by
  intro L
  induction L with
  | nil => intro _; rfl
  | cons a L ih =>
      intro hmem
      have ha : pr.2 ≠ a := fun h => hmem (h ▸ List.mem_cons_self a L)
      have hL : pr.2 ∉ L := fun h => hmem (List.mem_cons_of_mem a h)
      simp only [List.map_cons, List.sum_cons, ih hL]
      simp [ha]

theorem sum_indicator_pair (t : ℕ) (pr : ℕ × ℕ) :
    ∀ L : List ℕ, L.Nodup → pr.2 ∈ L →
    (L.map fun p => if pr.1 = t ∧ pr.2 = p then 1 else 0).sum
      = if pr.1 = t then 1 else 0 := by
  intro L
  induction L with
  | nil => intro _ hmem; exact absurd hmem (by simp)
  | cons a L ih =>
      intro hnd hmem
      rcases List.mem_cons.mp hmem with ha | hL
      · have hnL : pr.2 ∉ L := ha ▸ (List.nodup_cons.mp hnd).1
        simp only [List.map_cons, List.sum_cons, sum_indicator_pair_zero t pr L hnL]
        by_cases ht : pr.1 = t
        · simp [ht, ha]
        · simp [ht]
      · have hna : pr.2 ≠ a := fun h => (List.nodup_cons.mp hnd).1 (h ▸ hL)
        simp only [List.map_cons, List.sum_cons, ih (List.nodup_cons.mp hnd).2 hL]
        simp [hna]

theorem sum_map_add {α : Type} (f g : α → ℕ) :
    ∀ L : List α, (L.map fun a => f a + g a).sum = (L.map f).sum + (L.map g).sum := by
  intro L
  induction L with
  | nil => rfl
  | cons a L ih =>
      simp only [List.map_cons, List.sum_cons, ih]
      omega

theorem sum_pairCount_row (t : ℕ) :
    ∀ (prs : List (ℕ × ℕ)) (L : List ℕ), L.Nodup → (∀ pr ∈ prs, pr.2 ∈ L) →
    (L.map fun p => pairCount prs t p).sum = prs.countP fun pr => pr.1 = t := by
  intro prs
  induction prs with
  | nil => intro L _ _; simp [pairCount]
  | cons pr prs ih =>
      intro L hnd hmem
      have hpt : ∀ p, pairCount (pr :: prs) t p
          = pairCount prs t p + if pr.1 = t ∧ pr.2 = p then 1 else 0 := by
        intro p
        unfold pairCount
        rw [List.countP_cons]
        simp
      have hmap : (L.map fun p => pairCount (pr :: prs) t p)
          = L.map fun p => pairCount prs t p + if pr.1 = t ∧ pr.2 = p then 1 else 0 :=
        List.map_congr_left fun p _ => hpt p
      rw [hmap, sum_map_add, ih L hnd (fun q hq => hmem q (List.mem_cons_of_mem pr hq)),
        sum_indicator_pair t pr L hnd (hmem pr (List.mem_cons_self pr prs)),
        List.countP_cons]
      simp

theorem sum_indicator_pair_fst_zero (p0 : ℕ) (pr : ℕ × ℕ) :
    ∀ L : List ℕ, pr.1 ∉ L →
    (L.map fun t => if pr.1 = t ∧ pr.2 = p0 then 1 else 0).sum = 0 := by
  intro L
  induction L with
  | nil => intro _; rfl
  | cons a L ih =>
      intro hmem
      have ha : pr.1 ≠ a := fun h => hmem (h ▸ List.mem_cons_self a L)
      have hL : pr.1 ∉ L := fun h => hmem (List.mem_cons_of_mem a h)
      simp only [List.map_cons, List.sum_cons, ih hL]
      simp [ha]

theorem sum_indicator_pair_fst (p0 : ℕ) (pr : ℕ × ℕ) :
    ∀ L : List ℕ, L.Nodup → pr.1 ∈ L →
    (L.map fun t => if pr.1 = t ∧ pr.2 = p0 then 1 else 0).sum
      = if pr.2 = p0 then 1 else 0 := by
  intro L
  induction L with
  | nil => intro _ hmem; exact absurd hmem (by simp)
  | cons a L ih =>
      intro hnd hmem
      rcases List.mem_cons.mp hmem with ha | hL
      · have hnL : pr.1 ∉ L := ha ▸ (List.nodup_cons.mp hnd).1
        simp only [List.map_cons, List.sum_cons, sum_indicator_pair_fst_zero p0 pr L hnL]
        by_cases hp : pr.2 = p0
        · simp [hp, ha]
        · simp [hp, ha.symm]
      · have hna : pr.1 ≠ a := fun h => (List.nodup_cons.mp hnd).1 (h ▸ hL)
        simp only [List.map_cons, List.sum_cons, ih (List.nodup_cons.mp hnd).2 hL]
        simp [hna]

theorem sum_pairCount_col (p0 : ℕ) :
    ∀ (prs : List (ℕ × ℕ)) (L : List ℕ), L.Nodup → (∀ pr ∈ prs, pr.1 ∈ L) →
    (L.map fun t => pairCount prs t p0).sum = prs.countP fun pr => pr.2 = p0 := by
  intro prs
  induction prs with
  | nil => intro L _ _; simp [pairCount]
  | cons pr prs ih =>
      intro L hnd hmem
      have hpt : ∀ t, pairCount (pr :: prs) t p0
          = pairCount prs t p0 + if pr.1 = t ∧ pr.2 = p0 then 1 else 0 := by
        intro t
        unfold pairCount
        rw [List.countP_cons]
        simp
      have hmap : (L.map fun t => pairCount (pr :: prs) t p0)
          = L.map fun t => pairCount prs t p0 + if pr.1 = t ∧ pr.2 = p0 then 1 else 0 :=
        List.map_congr_left fun t _ => hpt t
      rw [hmap, sum_map_add, ih L hnd (fun q hq => hmem q (List.mem_cons_of_mem pr hq)),
        sum_indicator_pair_fst p0 pr L hnd (hmem pr (List.mem_cons_self pr prs)),
        List.countP_cons]
      simp

theorem countP_zip_fst (t : ℕ) :
    ∀ (yt yp : List ℕ), yt.length = yp.length →
    (yt.zip yp).countP (fun pr => pr.1 = t) = yt.count t := by
  intro yt
  induction yt with
  | nil => intro yp _; simp
  | cons a yt ih =>
      intro yp hlen
      cases yp with
      | nil => exact absurd hlen (by simp)
      | cons b yp =>
          rw [List.zip_cons_cons, List.countP_cons, List.count_cons,
            ih yp (by simpa using hlen)]
          simp

theorem countP_zip_snd (p0 : ℕ) :
    ∀ (yt yp : List ℕ), yt.length = yp.length →
    (yt.zip yp).countP (fun pr => pr.2 = p0) = yp.count p0 := by
  intro yt
  induction yt with
  | nil =>
      intro yp hlen
      cases yp with
      | nil => simp
      | cons _ _ => exact absurd hlen (by simp)
  | cons a yt ih =>
      intro yp hlen
      cases yp with
      | nil => exact absurd hlen (by simp)
      | cons b yp =>
          rw [List.zip_cons_cons, List.countP_cons, List.count_cons,
            ih yp (by simpa using hlen)]
          simp

theorem cmRowSum_eq_trueCount {yt yp : List ℕ} (hlen : yt.length = yp.length) (t : ℕ) :
    cmRowSum yt yp t = yt.count t := by
  unfold cmRowSum
  rw [sum_pairCount_row t (yt.zip yp) (cmLabels yt yp) (cmLabels_nodup yt yp)
    (fun pr hpr => mem_cmLabels.mpr (List.mem_append_right yt (List.of_mem_zip hpr).2)),
    countP_zip_fst t yt yp hlen]

theorem cmColSum_eq_predCount {yt yp : List ℕ} (hlen : yt.length = yp.length) (p0 : ℕ) :
    cmColSum yt yp p0 = yp.count p0 := by
  unfold cmColSum
  rw [sum_pairCount_col p0 (yt.zip yp) (cmLabels yt yp) (cmLabels_nodup yt yp)
    (fun pr hpr => mem_cmLabels.mpr (List.mem_append_left yp (List.of_mem_zip hpr).1)),
    countP_zip_snd p0 yt yp hlen]

theorem pairCount_le_fst {prs : List (ℕ × ℕ)} {t p0 : ℕ} :
    pairCount prs t p0 ≤ prs.countP fun pr => pr.1 = t := by
  unfold pairCount
  exact List.countP_mono_left fun pr _ h => by
    simp only [decide_eq_true_eq] at h ⊢
    exact h.1

theorem pairCount_le_snd {prs : List (ℕ × ℕ)} {t p0 : ℕ} :
    pairCount prs t p0 ≤ prs.countP fun pr => pr.2 = p0 := by
  unfold pairCount
  exact List.countP_mono_left fun pr _ h => by
    simp only [decide_eq_true_eq] at h ⊢
    exact h.2

/-- Claim C7 (amended): as long as every classifier class occurs somewhere
in the evaluated set — the confusion-matrix label axis then coincides with
pipeline.classes_ — nothing crashes and the division is an explicit IEEE
one: a class with zero true members gets completeness NaN (0/0), a class
with zero predicted members gets purity NaN, and a class with members gets
the ordinary finite ratio.  A class absent from both true and predicted
labels, however, drops off the confusion-matrix axis and the positional zip
silently misassigns the remaining metrics (see the counterexample). -/
theorem metrics_zero_member_nan (cls yt yp : List ℕ) (i : ℕ)
    (hax : cmLabels yt yp = cls) (hlen : yt.length = yp.length)
    (hi : i < cls.length) :
    (yt.count (cls.getD i 0) = 0 →
      (completenessList yt yp).getD i (F.fin 0) = F.nan) ∧
    (0 < yt.count (cls.getD i 0) →
      (completenessList yt yp).getD i (F.fin 0)
        = F.fin ((pairCount (yt.zip yp) (cls.getD i 0) (cls.getD i 0) : ℚ)
            / (yt.count (cls.getD i 0) : ℚ))) ∧
    (yp.count (cls.getD i 0) = 0 →
      (purityList yt yp).getD i (F.fin 0) = F.nan) ∧
    (0 < yp.count (cls.getD i 0) →
      (purityList yt yp).getD i (F.fin 0)
        = F.fin ((pairCount (yt.zip yp) (cls.getD i 0) (cls.getD i 0) : ℚ)
            / (yp.count (cls.getD i 0) : ℚ))) := by
  have hil : i < (cmLabels yt yp).length := by rw [hax]; exact hi
  have hgetc : (cmLabels yt yp).getD i 0 = cls.getD i 0 := by rw [hax]
  have hcomp : (completenessList yt yp).getD i (F.fin 0)
      = F.div (F.fin (pairCount (yt.zip yp) (cls.getD i 0) (cls.getD i 0)))
              (F.fin (yt.count (cls.getD i 0))) := by
    unfold completenessList
    rw [getD_map_lt _ _ i hil _ 0, hgetc, cmRowSum_eq_trueCount hlen]
  have hpur : (purityList yt yp).getD i (F.fin 0)
      = F.div (F.fin (pairCount (yt.zip yp) (cls.getD i 0) (cls.getD i 0)))
              (F.fin (yp.count (cls.getD i 0))) := by
    unfold purityList
    rw [getD_map_lt _ _ i hil _ 0, hgetc, cmColSum_eq_predCount hlen]
  refine ⟨?_, ?_, ?_, ?_⟩
  · intro h0
    have hdiag : pairCount (yt.zip yp) (cls.getD i 0) (cls.getD i 0) = 0 := by
      have := @pairCount_le_fst (yt.zip yp) (cls.getD i 0) (cls.getD i 0)
      rw [countP_zip_fst _ yt yp hlen, h0] at this
      omega
    rw [hcomp, hdiag, h0]
    simp [F.div]
  · intro hpos
    have hne : ((yt.count (cls.getD i 0) : ℚ)) ≠ 0 := by
      have : yt.count (cls.getD i 0) ≠ 0 := by omega
      exact_mod_cast this
    rw [hcomp, F_div_fin _ _ hne]
  · intro h0
    have hdiag : pairCount (yt.zip yp) (cls.getD i 0) (cls.getD i 0) = 0 := by
      have := @pairCount_le_snd (yt.zip yp) (cls.getD i 0) (cls.getD i 0)
      rw [countP_zip_snd _ yt yp hlen, h0] at this
      omega
    rw [hpur, hdiag, h0]
    simp [F.div]
  · intro hpos
    have hne : ((yp.count (cls.getD i 0) : ℚ)) ≠ 0 := by
      have : yp.count (cls.getD i 0) ≠ 0 := by omega
      exact_mod_cast this
    rw [hpur, F_div_fin _ _ hne]

/-- Witness for metrics_zero_member_nan: predicted class 1 never occurs as a
true label, its completeness is NaN; class 0 has true members and gets the
ordinary ratio. -/
theorem metrics_zero_member_nan_w :
    ([0,0] : List ℕ).count 1 = 0 ∧
    (completenessList [0,0] [0,1]).getD 1 (F.fin 0) = F.nan ∧
    0 < ([0,0] : List ℕ).count 0 ∧
    (completenessList [0,0] [0,1]).getD 0 (F.fin 0) =
      F.fin ((pairCount (([0,0] : List ℕ).zip [0,1]) 0 0 : ℚ)
        / (([0,0] : List ℕ).count 0 : ℚ)) :=
  ⟨rfl,
   (metrics_zero_member_nan [0,1] [0,0] [0,1] 1 (by decide) rfl (by decide)).1 rfl,
   by decide,
   (metrics_zero_member_nan [0,1] [0,0] [0,1] 0 (by decide) rfl (by decide)).2.1 (by decide)⟩

/-- Counterexample to claim C7 as stated: with classifier classes [0,1,2]
and an evaluation set in which class 1 appears neither as a true nor as a
predicted label, class 1 has zero true members yet its reported
completeness is 1.0, not NaN — the confusion matrix only has axes [0,2] and
the positional zip hands class 2's metrics to class 1 (and class 2 gets
none at all). -/
theorem metrics_zero_member_nan_cex :
    ([0,2] : List ℕ).count 1 = 0 ∧
    perClassMetrics [0,1,2] [0,2] [0,2] =
      [(0, F.fin 1, F.fin 1), (1, F.fin 1, F.fin 1)] ∧
    F.fin 1 ≠ F.nan :=
  ⟨rfl, by with_unfolding_all rfl, by simp⟩

/-- Claim C6: train_classifier raises NotImplementedError exactly for
sampler-type names other than 'mvg' and 'smote', and in that case nothing
has been resampled or fitted (the event trace is empty). -/
theorem trainer_sampler_dispatch (X : List (List ℚ)) (y : List ℕ) (s : String)
    (g : RNG) :
    (isNotImplementedB (trainClassifier X y s g).1 = true ↔
      ¬(s = "mvg" ∨ s = "smote")) ∧
    (¬(s = "mvg" ∨ s = "smote") → (trainClassifier X y s g).2 = []) := by
  by_cases h1 : s = "mvg"
  · subst h1
    refine ⟨⟨fun h => ?_, fun h => absurd (Or.inl rfl) h⟩,
      fun h => absurd (Or.inl rfl) h⟩
    simp only [trainClassifier, if_pos rfl] at h
    rcases hfr : fitResample (some 1000) none X y g with e | r
    · rw [hfr] at h
      simp [isNotImplementedB] at h
    · rw [hfr] at h
      simp [isNotImplementedB] at h
  · by_cases h2 : s = "smote"
    · subst h2
      refine ⟨⟨fun h => ?_, fun h => absurd (Or.inr rfl) h⟩,
        fun h => absurd (Or.inr rfl) h⟩
      simp only [trainClassifier, if_neg h1, if_pos rfl] at h
      simp [isNotImplementedB] at h
    · have hcase : ¬(s = "mvg" ∨ s = "smote") := by
        intro h
        rcases h with h | h
        · exact h1 h
        · exact h2 h
      refine ⟨⟨fun _ => hcase, fun _ => ?_⟩, fun _ => ?_⟩
      · simp [trainClassifier, if_neg h1, if_neg h2, isNotImplementedB]
      · simp [trainClassifier, if_neg h1, if_neg h2]

/-- Witness for trainer_sampler_dispatch: an unrecognized name raises the
configuration error with an empty event trace. -/
theorem trainer_sampler_dispatch_w :
    isNotImplementedB (trainClassifier [[1]] [0] "bogus" 0).1 = true ∧
    (trainClassifier [[1]] [0] "bogus" 0).2 = [] :=
  ⟨(trainer_sampler_dispatch [[1]] [0] "bogus" 0).1.mpr (by decide),
   (trainer_sampler_dispatch [[1]] [0] "bogus" 0).2 (by decide)⟩

/-- Claim C8: the sweep produces one record per hyperparameter combination;
a combination whose test raises contributes its original parameter values
with no computed metrics and is logged together with the error, while the
sweep carries on; a combination that succeeds contributes its parameters
enriched with the metrics. -/
theorem sweep_catches_failures (validate : List (String × ℚ) → Except String EvalData)
    (ps : List (List (String × ℚ))) :
    (sweepRows validate ps).length = ps.length ∧
    ∀ i, i < ps.length →
      (∀ e, validate (ps.getD i []) = .error e →
        (sweepRows validate ps).getD i ⟨[], []⟩ = ⟨ps.getD i [], []⟩ ∧
        (ps.getD i [], e) ∈ sweepLog validate ps) ∧
      (∀ ev, validate (ps.getD i []) = .ok ev →
        (sweepRows validate ps).getD i ⟨[], []⟩ = ⟨ps.getD i [], metricEntries ev⟩) := by
  refine ⟨by simp [sweepRows], ?_⟩
  intro i hi
  have hrow : (sweepRows validate ps).getD i ⟨[], []⟩
      = (testHyperparamsCaught validate (ps.getD i [])).1 := by
    unfold sweepRows
    rw [getD_map_lt _ _ i hi _ []]
  have hmemp : ps.getD i [] ∈ ps := by
    rw [List.getD_eq_getElem?_getD, List.getElem?_eq_getElem hi]
    exact List.getElem_mem hi
  constructor
  · intro e he
    constructor
    · rw [hrow]
      unfold testHyperparamsCaught testHyperparameters
      rw [he]
    · unfold sweepLog
      refine List.mem_filterMap.mpr ⟨ps.getD i [], hmemp, ?_⟩
      unfold testHyperparamsCaught testHyperparameters
      rw [he]
  · intro ev hev
    rw [hrow]
    unfold testHyperparamsCaught testHyperparameters
    rw [hev]

/-- Witness for sweep_catches_failures: a two-combination sweep in which the
second combination fails is not aborted — it yields two rows, the failing
one keeps only its original parameters and is logged with the error. -/
theorem sweep_catches_failures_w :
    (sweepRows (fun p => if p.isEmpty then .error ("boom")
        else .ok ⟨[0], [0], [0]⟩) [[("max_depth", 2)], []]).length = 2 ∧
    ((sweepRows (fun p => if p.isEmpty then .error ("boom")
        else .ok ⟨[0], [0], [0]⟩) [[("max_depth", 2)], []]).getD 1 ⟨[], []⟩
      = ⟨[], []⟩ ∧
     (([] : List (String × ℚ)), "boom") ∈ sweepLog (fun p => if p.isEmpty then .error ("boom")
        else .ok ⟨[0], [0], [0]⟩) [[("max_depth", 2)], []]) ∧
    (sweepRows (fun p => if p.isEmpty then .error ("boom")
        else .ok ⟨[0], [0], [0]⟩) [[("max_depth", 2)], []]).getD 0 ⟨[], []⟩
      = ⟨[("max_depth", 2)], metricEntries ⟨[0], [0], [0]⟩⟩ :=
  ⟨(sweep_catches_failures _ _).1,
   ((sweep_catches_failures _ [[("max_depth", 2)], []]).2 1 (by decide)).1 "boom" rfl,
   ((sweep_catches_failures _ [[("max_depth", 2)], []]).2 0 (by decide)).2 ⟨[0], [0], [0]⟩ rfl⟩
